import Mathlib

/-!
Shallow embedding of the spectrogram rendering core of the repository
(file `backend/app/services/spectrogram.py`, class `SpectrogramService`):
the spectral analyzer `_compute_spectrogram`, the color map
`_get_color_for_value`, and the PNG encoder `_encode_png`.

Modelling conventions:
* Python ints are `ℕ`/`ℤ`; Python float arithmetic on durations and the
  dimension computations is modelled exactly over `ℚ`; the numerical signal
  path (windowing, FFT, logarithms, gamma) is modelled over `ℝ`.
* `int(x)` (truncation toward zero) is `pyInt` / `pyIntR`.
* numpy array writes are bounds-checked (out-of-range indexing raises
  `IndexError`), so the image-filling loop is modelled in the `Option` monad:
  `none` models the raised exception.
* The sample buffer is threaded through the frame-extraction loop as explicit
  state, so that the non-mutation of the buffer is a provable statement.
-/

namespace Shadowing

/-- Source: `FFT_SIZE = 1024` from the source. -/
def FFT_SIZE : ℕ := 1024

/-- Source: `HOP_SIZE = 256` from the source. -/
def HOP_SIZE : ℕ := 256

/-- Source: `MAX_WIDTH = 800` from the source. -/
def MAX_WIDTH : ℕ := 800

/-- Source: `MAX_HEIGHT = 200` from the source. -/
def MAX_HEIGHT : ℕ := 200

/-- Source: `BG_COLOR = (10, 0, 30)` from the source. -/
def BG_COLOR : ℤ × ℤ × ℤ := (10, 0, 30)

/-- Source: `num_bins = FFT_SIZE // 2` from the source. -/
def numBins : ℕ := FFT_SIZE / 2

/-- Python `int(q)` on an exact rational: truncation toward zero. -/
def pyInt (q : ℚ) : ℤ := if 0 ≤ q then ⌊q⌋ else ⌈q⌉

/-- Source: `num_frames = max(1, (len(samples) - FFT_SIZE) // HOP_SIZE + 1)`;
Python `//` on ints is floor division (`Int.fdiv`). -/
def numFrames (n : ℕ) : ℕ := (max 1 (((n : ℤ) - (FFT_SIZE : ℤ)).fdiv (HOP_SIZE : ℤ) + 1)).toNat

/-- Source: `duration_ratio = duration / max_duration if max_duration and max_duration > 0
else 1.0`.  `max_duration` is falsy when it is `None` or `0.0`. -/
def durationRatio (maxDuration : Option ℚ) (duration : ℚ) : ℚ :=
  match maxDuration with
  | none => 1
  | some m => if 0 < m then duration / m else 1

/-- Source: `base_width = min(num_frames, MAX_WIDTH)`; `display_width = base_width`. -/
def displayWidth (n : ℕ) : ℕ := min (numFrames n) MAX_WIDTH

/-- Source: `spectrogram_width = max(1, int(base_width * duration_ratio))`. -/
def spectrogramWidth (n : ℕ) (maxDuration : Option ℚ) (duration : ℚ) : ℕ :=
  (max 1 (pyInt ((displayWidth n : ℚ) * durationRatio maxDuration duration))).toNat

/-- Source: `display_height = min(num_bins, MAX_HEIGHT)`. -/
def displayHeight : ℕ := min numBins MAX_HEIGHT

/-- Source: `frame_step = max(1, num_frames // spectrogram_width)`. -/
def frameStep (n : ℕ) (maxDuration : Option ℚ) (duration : ℚ) : ℕ :=
  max 1 (numFrames n / spectrogramWidth n maxDuration duration)

/-- Python `range(0, n, step)` for `step ≥ 1`. -/
def strideRange (n step : ℕ) : List ℕ :=
  (List.range ((n + step - 1) / step)).map (fun i => i * step)

/-- The frame indices iterated by `for frame_idx in range(0, num_frames, frame_step)`. -/
def frameIndices (n : ℕ) (maxDuration : Option ℚ) (duration : ℚ) : List ℕ :=
  strideRange (numFrames n) (frameStep n maxDuration duration)

/-- The `1e-10` epsilon used in the source (exact value `10 ^ (-10)`). -/
noncomputable def EPS : ℝ := 1e-10

/-- Source: `_hann_window(size)`: `0.5 * (1 - cos(2π · i / (size - 1)))` for `i < size`. -/
noncomputable def hannWindow (size : ℕ) : List ℝ :=
  (List.range size).map
    (fun (i : ℕ) => 0.5 * (1 - Real.cos (2 * Real.pi * (i : ℝ) / ((size : ℝ) - 1))))

/-- numpy read-only slice `a[i:j]`, threading the array through as state. -/
def npSlice (a : List ℝ) (i j : ℕ) : List ℝ × List ℝ := (((a.drop i).take (j - i)), a)

/-- numpy slice assignment `a[:k] = v` (for `v` of length `k`): builds the
updated fresh array; the target is the scratch frame, never the sample buffer. -/
def npSetSlice (a : List ℝ) (k : ℕ) (v : List ℝ) : List ℝ := v.take k ++ a.drop k

/-- The frame-extraction step of `_compute_spectrogram` for one frame index,
threading the sample buffer through every read (second component).
Mirrors:
`if end_sample <= len(samples): frame = samples[start:end] * window`
`else: frame = zeros(FFT_SIZE); if available > 0: frame[:available] = samples[start:] * window[:available]`. -/
noncomputable def extractFrameSt (samples : List ℝ) (start : ℕ) : List ℝ × List ℝ :=
  let window := hannWindow FFT_SIZE
  if start + FFT_SIZE ≤ samples.length then
    let s := npSlice samples start (start + FFT_SIZE)
    (List.zipWith (fun a b => a * b) s.1 window, s.2)
  else
    let frame0 := List.replicate FFT_SIZE (0 : ℝ)
    let available := samples.length - start
    if 0 < available then
      let s := npSlice samples start samples.length
      (npSetSlice frame0 available (List.zipWith (fun a b => a * b) s.1 (window.take available)), s.2)
    else (frame0, samples)

/-- The windowed frame produced for a given start sample. -/
noncomputable def extractFrame (samples : List ℝ) (start : ℕ) : List ℝ :=
  (extractFrameSt samples start).1

/-- The frame loop of `_compute_spectrogram`: produces the windowed frames in
order, threading the sample buffer through as explicit state. -/
noncomputable def framesSt (samples : List ℝ) (idxs : List ℕ) : List (List ℝ) × List ℝ :=
  idxs.foldl (fun acc idx =>
    let p := extractFrameSt acc.2 (idx * HOP_SIZE)
    (acc.1 ++ [p.1], p.2)) ([], samples)

/-- Source: `np.fft.rfft`: the real-input DFT,
`X[k] = Σ_{j<n} x[j] · exp(-2πi·j·k/n)` for `k ≤ n/2`. -/
noncomputable def rfft (x : List ℝ) : List ℂ :=
  (List.range (x.length / 2 + 1)).map (fun (k : ℕ) =>
    ((List.range x.length).map (fun (j : ℕ) =>
      ((x.getD j 0 : ℝ) : ℂ) *
        Complex.exp (-(2 * Real.pi * Complex.I) * (j : ℂ) * (k : ℂ) / (x.length : ℂ)))).sum)

/-- Source: `use_bins = min(num_bins, display_height * 2)`. -/
def useBins : ℕ := min numBins (displayHeight * 2)

/-- One magnitude row: `db = 20 * log10(abs(fft_result[:use_bins]) + 1e-10)`. -/
noncomputable def dbRow (frame : List ℝ) : List ℝ :=
  ((rfft frame).take useBins).map (fun z => 20 * Real.logb 10 (Complex.abs z + EPS))

/-- The list of magnitude rows computed by the frame loop. -/
noncomputable def magnitudeRows (samples : List ℝ) (maxDuration : Option ℚ) (duration : ℚ) :
    List (List ℝ) :=
  ((framesSt samples (frameIndices samples.length maxDuration duration)).1).map dbRow

/-- Source: `np.max` of a row, with `⊥` (float `-inf`) for the empty row. -/
noncomputable def listMaxW (l : List ℝ) : WithBot ℝ :=
  l.foldl (fun m (x : ℝ) => max m ((x : WithBot ℝ))) ⊥

/-- Source: `max_magnitude`: starts at `-np.inf` (`⊥`) and is replaced whenever a frame
max exceeds it, exactly as in the source loop. -/
noncomputable def maxMagnitudeW (rows : List (List ℝ)) : WithBot ℝ :=
  rows.foldl (fun m row => if m < listMaxW row then listMaxW row else m) ⊥

/-- Python `int(x)` on a real: truncation toward zero. -/
noncomputable def pyIntR (x : ℝ) : ℤ := if 0 ≤ x then ⌊x⌋ else ⌈x⌉

/-- Source: `_get_color_for_value`: `v = value ** 0.7` followed by the 4-segment
piecewise-linear gradient, each channel truncated with `int(...)`. -/
noncomputable def getColorForValue (value : ℝ) : ℤ × ℤ × ℤ :=
  let v := value ^ (0.7 : ℝ)
  if v < 0.25 then
    let t := v / 0.25
    (pyIntR (10 + 50 * t), pyIntR (10 * t), pyIntR (30 + 70 * t))
  else if v < 0.5 then
    let t := (v - 0.25) / 0.25
    (pyIntR (60 + 140 * t), pyIntR (10 + 30 * t), pyIntR (100 + 50 * t))
  else if v < 0.75 then
    let t := (v - 0.5) / 0.25
    (pyIntR (200 + 55 * t), pyIntR (40 + 100 * t), pyIntR (150 - 100 * t))
  else
    let t := (v - 0.75) / 0.25
    (255, pyIntR (140 + 115 * t), pyIntR (50 + 150 * t))

/-- Source: `bin_idx = min(int((display_height - 1 - row) * (len(frame_mags) / display_height)),
len(frame_mags) - 1)`; the float arithmetic on these small integers is exact,
so it is modelled over `ℚ`. -/
def binIdx (row L H : ℕ) : ℕ :=
  min (pyInt (((H : ℚ) - 1 - (row : ℚ)) * ((L : ℚ) / (H : ℚ)))).toNat (L - 1)

/-- Source: `normalized = max(0.0, min(1.0, (db - min_db) / (max_magnitude - min_db + 1e-10)))`
for the pixel at `(row, col)`. -/
noncomputable def normalizedValue (rows : List (List ℝ)) (maxMag minDb : ℝ)
    (col row : ℕ) : ℝ :=
  let frameMags := rows.getD col []
  let db := frameMags.getD (binIdx row frameMags.length displayHeight) 0
  max 0 (min 1 ((db - minDb) / (maxMag - minDb + EPS)))

/-- The RGB triple written at `(row, col)`. -/
noncomputable def pixelColor (rows : List (List ℝ)) (maxMag minDb : ℝ)
    (col row : ℕ) : ℤ × ℤ × ℤ :=
  getColorForValue (normalizedValue rows maxMag minDb col row)

/-- The RGB image: a `height × width` grid of integer triples. -/
@[ext]
structure Image where
  height : ℕ
  width : ℕ
  pix : ℕ → ℕ → ℤ × ℤ × ℤ

/-- Storing an integer in a `uint8` numpy cell keeps its value modulo 256. -/
def colorMod (c : ℤ × ℤ × ℤ) : ℤ × ℤ × ℤ := (c.1 % 256, c.2.1 % 256, c.2.2 % 256)

/-- Source: `image[row, col] = (r, g, b)`: numpy raises `IndexError` (modelled as
`none`) when the indices are out of bounds. -/
def writePixel (img : Image) (row col : ℕ) (c : ℤ × ℤ × ℤ) : Option Image :=
  if row < img.height ∧ col < img.width then
    some { img with
      pix := fun r q => if r = row ∧ q = col then colorMod c else img.pix r q }
  else none

/-- The inner loop `for row in range(display_height): image[row, col] = ...`. -/
def fillColumn (colorAt : ℕ → ℕ → ℤ × ℤ × ℤ) (col : ℕ) (img : Image) : Option Image :=
  (List.range displayHeight).foldlM
    (fun im row => writePixel im row col (colorAt col row)) img

/-- The outer loop `for col in range(actual_cols)`. -/
def fillImage (colorAt : ℕ → ℕ → ℤ × ℤ × ℤ) (actualCols : ℕ) (img0 : Image) :
    Option Image :=
  (List.range actualCols).foldlM (fun im col => fillColumn colorAt col im) img0

/-- Source: `_compute_spectrogram`, threading the sample buffer through as explicit
state: the first component is the produced image (or `none` for a raised
`IndexError`), the second is the sample buffer as the code leaves it. -/
noncomputable def computeSpectrogramSt (samples : List ℝ) (maxDuration : Option ℚ)
    (duration : ℚ) : Option Image × List ℝ :=
  let n := samples.length
  let fr := framesSt samples (frameIndices n maxDuration duration)
  let rows := fr.1.map dbRow
  let maxMag := (maxMagnitudeW rows).unbot' 0
  let minDb := maxMag - 80
  let img0 : Image := ⟨displayHeight, displayWidth n, fun _ _ => BG_COLOR⟩
  let actualCols := min rows.length (spectrogramWidth n maxDuration duration)
  (fillImage (pixelColor rows maxMag minDb) actualCols img0, fr.2)

/-- Source: `_compute_spectrogram`: the resulting image. -/
noncomputable def computeSpectrogram (samples : List ℝ) (maxDuration : Option ℚ)
    (duration : ℚ) : Option Image :=
  (computeSpectrogramSt samples maxDuration duration).1

/-- Source: `struct.pack('>I', n)`: 4 bytes, big-endian. -/
def be32 (n : ℕ) : List ℕ := [n / 2 ^ 24 % 256, n / 2 ^ 16 % 256, n / 2 ^ 8 % 256, n % 256]

/-- One shift-xor round of the bitwise CRC-32 computation. -/
def crc32Round (c : ℕ) : ℕ := if c % 2 = 1 then (c / 2) ^^^ 0xEDB88320 else c / 2

/-- Folding one byte into the CRC-32 accumulator. -/
def crc32Byte (crc b : ℕ) : ℕ :=
  (List.range 8).foldl (fun c _ => crc32Round c) (crc ^^^ b % 256)

/-- Modelled from the spec: `zlib.crc32` is an external library call; the spec
fixes it as standard CRC-32 (polynomial `0xEDB88320` reflected form, initial
and final XOR `0xFFFFFFFF`). -/
def crc32 (data : List ℕ) : ℕ := (data.foldl crc32Byte 0xFFFFFFFF) ^^^ 0xFFFFFFFF

/-- The 4-byte ASCII tag `IHDR`. -/
def tagIHDR : List ℕ := [73, 72, 68, 82]

/-- The 4-byte ASCII tag `IDAT`. -/
def tagIDAT : List ℕ := [73, 68, 65, 84]

/-- The 4-byte ASCII tag `IEND`. -/
def tagIEND : List ℕ := [73, 69, 78, 68]

/-- The fixed 8-byte PNG signature `b'\x89PNG\r\n\x1a\n'`. -/
def pngSignature : List ℕ := [0x89, 0x50, 0x4E, 0x47, 0x0D, 0x0A, 0x1A, 0x0A]

/-- Source: `png_chunk(chunk_type, data)`: length, tag, data, CRC of tag ++ data. -/
def pngChunk (ty data : List ℕ) : List ℕ :=
  be32 data.length ++ ty ++ data ++ be32 (crc32 (ty ++ data))

/-- Source: `image[row].tobytes()`: the row's RGB bytes in column order. -/
def rowBytes (img : Image) (r : ℕ) : List ℕ :=
  (List.range img.width).foldl
    (fun acc c => acc ++ [(img.pix r c).1.toNat, (img.pix r c).2.1.toNat, (img.pix r c).2.2.toNat]) []

/-- The `raw_data` loop: each scanline prefixed with the filter byte `0x00`,
rows top to bottom. -/
def rawScanlines (img : Image) : List ℕ :=
  (List.range img.height).foldl (fun acc r => acc ++ (0 :: rowBytes img r)) []

/-- Source: `_encode_png`, parametrized by the external `zlib.compress(·, 9)`
(deflate at level 9), which the source calls as a black box. -/
def encodePng (compress : List ℕ → List ℕ) (img : Image) : List ℕ :=
  let ihdrData := be32 img.width ++ be32 img.height ++ [8, 2, 0, 0, 0]
  let ihdr := pngChunk tagIHDR ihdrData
  let idat := pngChunk tagIDAT (compress (rawScanlines img))
  let iend := pngChunk tagIEND []
  pngSignature ++ ihdr ++ idat ++ iend

/-! ### Helper lemmas on the dimension computations -/

lemma one_le_numFrames (n : ℕ) : 1 ≤ numFrames n := by
  have h : (1 : ℤ) ≤ max 1 (((n : ℤ) - (FFT_SIZE : ℤ)).fdiv (HOP_SIZE : ℤ) + 1) :=
    le_max_left _ _
  simpa [numFrames] using Int.toNat_le_toNat h

lemma one_le_displayWidth (n : ℕ) : 1 ≤ displayWidth n :=
  le_min (one_le_numFrames n) (by decide)

lemma one_le_spectrogramWidth (n : ℕ) (md : Option ℚ) (d : ℚ) :
    1 ≤ spectrogramWidth n md d := by
  have h : (1 : ℤ) ≤ max 1 (pyInt ((displayWidth n : ℚ) * durationRatio md d)) :=
    le_max_left _ _
  simpa [spectrogramWidth] using Int.toNat_le_toNat h

lemma spectrogramWidth_le_displayWidth (n : ℕ) (md : Option ℚ) (d : ℚ)
    (h : durationRatio md d ≤ 1) : spectrogramWidth n md d ≤ displayWidth n := by
  rw [spectrogramWidth, Int.toNat_le]
  have hdw : (1 : ℤ) ≤ (displayWidth n : ℤ) := by exact_mod_cast one_le_displayWidth n
  rcases le_or_lt 0 ((displayWidth n : ℚ) * durationRatio md d) with hq | hq
  · rw [pyInt, if_pos hq]
    refine max_le hdw ?_
    have hmul : (displayWidth n : ℚ) * durationRatio md d ≤ (displayWidth n : ℚ) :=
      mul_le_of_le_one_right (by positivity) h
    calc ⌊(displayWidth n : ℚ) * durationRatio md d⌋
        ≤ ⌊(displayWidth n : ℚ)⌋ := Int.floor_le_floor hmul
      _ = (displayWidth n : ℤ) := Int.floor_natCast _
  · rw [pyInt, if_neg (not_le.mpr hq)]
    have hc : ⌈(displayWidth n : ℚ) * durationRatio md d⌉ ≤ 0 :=
      Int.ceil_le.mpr (by exact_mod_cast hq.le)
    exact max_le hdw (le_trans hc (by linarith))

lemma spectrogramWidth_eval_1280 : spectrogramWidth 1280 (some 1) 2 = 4 := by
  have h : numFrames 1280 = 2 := by decide
  simp only [spectrogramWidth, displayWidth, durationRatio, h]
  norm_num [pyInt, MAX_WIDTH] <;> decide

/-! ### Claim C1 -/

/-- Claim C1, counterexample: with 1280 samples (`num_frames = 2`,
`display_width = 2`), `max_duration = 1.0` and `duration = 2.0`
(`duration_ratio = 2`), the code computes `spectrogram_width = 4`, which
exceeds `display_width = 2`: the claimed invariant
`spectrogram_width ≤ display_width` fails exactly when `duration_ratio > 1`. -/
theorem claim_C1_counterexample :
    ¬ (spectrogramWidth 1280 (some 1) 2 ≤ displayWidth 1280) := by
  have h2 : displayWidth 1280 = 2 := by decide
  rw [spectrogramWidth_eval_1280, h2]
  decide

/-- Claim C1, amended: for every input, `1 ≤ display_height ≤ 200` and
`1 ≤ display_width ≤ 800`; and `spectrogram_width ≤ display_width` holds
whenever `duration_ratio ≤ 1` (when `max_duration` is provided and the actual
duration exceeds it, `spectrogram_width` may exceed `display_width`). -/
theorem claim_C1_amended (n : ℕ) (md : Option ℚ) (d : ℚ) :
    (1 ≤ displayHeight ∧ displayHeight ≤ 200 ∧
      1 ≤ displayWidth n ∧ displayWidth n ≤ 800) ∧
    (durationRatio md d ≤ 1 → spectrogramWidth n md d ≤ displayWidth n) :=
  ⟨⟨by decide, by decide, one_le_displayWidth n, min_le_right _ _⟩,
    spectrogramWidth_le_displayWidth n md d⟩

/-- Claim C1, witness: at 1280 samples, `max_duration = 2.0`, `duration = 1.0`
(`duration_ratio = 1/2 ≤ 1`), the amended invariant holds. -/
theorem claim_C1_witness :
    spectrogramWidth 1280 (some 2) 1 ≤ displayWidth 1280 ∧ 1 ≤ displayWidth 1280 :=
  ⟨(claim_C1_amended 1280 (some 2) 1).2 (by norm_num [durationRatio]),
    (claim_C1_amended 1280 (some 2) 1).1.2.2.1⟩

/-! ### Claim C3 -/

/-- Claim C3, counterexample: for the empty sample buffer (`num_frames = 1`,
`display_width = 1`) with `max_duration = 2.0` and `duration = 1.0`, the code
computes `spectrogram_width = max(1, int(1 * 0.5)) = 1`, not
`floor(display_width × 0.5) = 0` as the claim's particular case asserts. -/
theorem claim_C3_counterexample :
    spectrogramWidth 0 (some 2) 1 ≠ (⌊(displayWidth 0 : ℚ) * (1 / 2 : ℚ)⌋).toNat := by
  have h : numFrames 0 = 1 := by decide
  have hdw : displayWidth 0 = 1 := by decide
  have h1 : spectrogramWidth 0 (some 2) 1 = 1 := by
    simp only [spectrogramWidth, displayWidth, durationRatio, h]
    norm_num [pyInt, MAX_WIDTH]
  rw [h1, hdw]
  norm_num

/-- Claim C3, amended: `duration_ratio = duration / max_duration` exactly when
`max_duration` is provided and positive, and `1.0` otherwise (absent, zero, or
negative); `spectrogram_width = max(1, floor(display_width × duration_ratio))`;
for `max_duration = 2.0`, `duration = 1.0` the ratio is `1/2` and
`spectrogram_width = floor(display_width × 0.5)` whenever `display_width ≥ 2`
(for `display_width = 1` the `max(1, ·)` clamp yields `1` instead). -/
theorem claim_C3_amended (n : ℕ) (md : Option ℚ) (d m : ℚ) :
    durationRatio none d = 1 ∧
    durationRatio (some 0) d = 1 ∧
    (m ≤ 0 → durationRatio (some m) d = 1) ∧
    (0 < m → durationRatio (some m) d = d / m) ∧
    spectrogramWidth n md d =
      (max 1 ⌊(displayWidth n : ℚ) * durationRatio md d⌋).toNat ∧
    durationRatio (some 2) 1 = 1 / 2 ∧
    (2 ≤ displayWidth n →
      spectrogramWidth n (some 2) 1 = (⌊(displayWidth n : ℚ) * (1 / 2 : ℚ)⌋).toNat) := by
  refine ⟨rfl, by norm_num [durationRatio], ?_, ?_, ?_, by norm_num [durationRatio], ?_⟩
  · intro hm
    simp [durationRatio, not_lt.mpr hm]
  · intro hm
    simp [durationRatio, hm]
  · rcases le_or_lt 0 ((displayWidth n : ℚ) * durationRatio md d) with hq | hq
    · rw [spectrogramWidth, pyInt, if_pos hq]
    · rw [spectrogramWidth, pyInt, if_neg (not_le.mpr hq)]
      have hc : ⌈(displayWidth n : ℚ) * durationRatio md d⌉ ≤ 0 :=
        Int.ceil_le.mpr (by exact_mod_cast hq.le)
      have hf : ⌊(displayWidth n : ℚ) * durationRatio md d⌋ ≤ 0 := Int.floor_nonpos hq.le
      rw [max_eq_left (by linarith), max_eq_left (by linarith)]
  · intro hdw
    have hr : durationRatio (some 2) 1 = 1 / 2 := by norm_num [durationRatio]
    have hq : (0 : ℚ) ≤ (displayWidth n : ℚ) * (1 / 2 : ℚ) := by positivity
    have hfl : (1 : ℤ) ≤ ⌊(displayWidth n : ℚ) * (1 / 2 : ℚ)⌋ := by
      rw [Int.le_floor]
      have : (2 : ℚ) ≤ (displayWidth n : ℚ) := by exact_mod_cast hdw
      push_cast
      linarith
    rw [spectrogramWidth, hr, pyInt, if_pos hq, max_eq_right hfl]

/-- Claim C3, witness: at 1280 samples (`display_width = 2`),
`max_duration = 2.0`, `duration = 1.0`: `spectrogram_width = floor(2 × 0.5) = 1`. -/
theorem claim_C3_witness :
    spectrogramWidth 1280 (some 2) 1 = (⌊(displayWidth 1280 : ℚ) * (1 / 2 : ℚ)⌋).toNat :=
  (claim_C3_amended 1280 (some 2) 1 0).2.2.2.2.2.2 (by decide)

/-! ### Color map lemmas -/

lemma pyIntR_eq_floor {x : ℝ} (h : 0 ≤ x) : pyIntR x = ⌊x⌋ := if_pos h

lemma pyIntR_bounds {x : ℝ} (h0 : 0 ≤ x) (h255 : x ≤ 255) :
    0 ≤ pyIntR x ∧ pyIntR x ≤ 255 := by
  rw [pyIntR, if_pos h0]
  refine ⟨Int.le_floor.mpr (by exact_mod_cast h0), ?_⟩
  have h := Int.floor_le_floor h255
  simpa using h

lemma pyIntR_le_pyIntR {a b : ℝ} (h0 : 0 ≤ a) (h : a ≤ b) : pyIntR a ≤ pyIntR b := by
  rw [pyIntR_eq_floor h0, pyIntR_eq_floor (le_trans h0 h)]
  exact Int.floor_le_floor h

lemma getColor_seg1 {x : ℝ} (h : x ^ (0.7 : ℝ) < 0.25) :
    getColorForValue x =
      (pyIntR (10 + 50 * (x ^ (0.7 : ℝ) / 0.25)),
       pyIntR (10 * (x ^ (0.7 : ℝ) / 0.25)),
       pyIntR (30 + 70 * (x ^ (0.7 : ℝ) / 0.25))) := by
  simp only [getColorForValue]
  rw [if_pos h]

lemma getColor_seg2 {x : ℝ} (h1 : ¬ x ^ (0.7 : ℝ) < 0.25) (h2 : x ^ (0.7 : ℝ) < 0.5) :
    getColorForValue x =
      (pyIntR (60 + 140 * ((x ^ (0.7 : ℝ) - 0.25) / 0.25)),
       pyIntR (10 + 30 * ((x ^ (0.7 : ℝ) - 0.25) / 0.25)),
       pyIntR (100 + 50 * ((x ^ (0.7 : ℝ) - 0.25) / 0.25))) := by
  simp only [getColorForValue]
  rw [if_neg h1, if_pos h2]

lemma getColor_seg3 {x : ℝ} (h1 : ¬ x ^ (0.7 : ℝ) < 0.5) (h2 : x ^ (0.7 : ℝ) < 0.75) :
    getColorForValue x =
      (pyIntR (200 + 55 * ((x ^ (0.7 : ℝ) - 0.5) / 0.25)),
       pyIntR (40 + 100 * ((x ^ (0.7 : ℝ) - 0.5) / 0.25)),
       pyIntR (150 - 100 * ((x ^ (0.7 : ℝ) - 0.5) / 0.25))) := by
  simp only [getColorForValue]
  rw [if_neg (by intro hc; exact h1 (by linarith)), if_neg h1, if_pos h2]

lemma getColor_seg4 {x : ℝ} (h : 0.75 ≤ x ^ (0.7 : ℝ)) :
    getColorForValue x =
      (255,
       pyIntR (140 + 115 * ((x ^ (0.7 : ℝ) - 0.75) / 0.25)),
       pyIntR (50 + 150 * ((x ^ (0.7 : ℝ) - 0.75) / 0.25))) := by
  simp only [getColorForValue]
  rw [if_neg (not_lt.mpr (by linarith)), if_neg (not_lt.mpr (by linarith)),
    if_neg (not_lt.mpr h)]

lemma getColor_channel_bounds (value : ℝ) (h0 : 0 ≤ value) (h1 : value ≤ 1) :
    (0 ≤ (getColorForValue value).1 ∧ (getColorForValue value).1 ≤ 255) ∧
    (0 ≤ (getColorForValue value).2.1 ∧ (getColorForValue value).2.1 ≤ 255) ∧
    (0 ≤ (getColorForValue value).2.2 ∧ (getColorForValue value).2.2 ≤ 255) := by
  have hv0 : (0 : ℝ) ≤ value ^ (0.7 : ℝ) := Real.rpow_nonneg h0 _
  have hv1 : value ^ (0.7 : ℝ) ≤ 1 := Real.rpow_le_one h0 h1 (by norm_num)
  rcases lt_or_le (value ^ (0.7 : ℝ)) 0.25 with h4 | h4
  · have ht0 : (0 : ℝ) ≤ value ^ (0.7 : ℝ) / 0.25 := by positivity
    have ht1 : value ^ (0.7 : ℝ) / 0.25 < 1 := by
      rw [div_lt_one (by norm_num : (0:ℝ) < 0.25)]
      exact h4
    rw [getColor_seg1 h4]
    exact ⟨pyIntR_bounds (by linarith) (by linarith),
      pyIntR_bounds (by linarith) (by linarith),
      pyIntR_bounds (by linarith) (by linarith)⟩
  · rcases lt_or_le (value ^ (0.7 : ℝ)) 0.5 with h5 | h5
    · have ht0 : (0 : ℝ) ≤ (value ^ (0.7 : ℝ) - 0.25) / 0.25 := by
        apply div_nonneg (by linarith) (by norm_num)
      have ht1 : (value ^ (0.7 : ℝ) - 0.25) / 0.25 < 1 := by
        rw [div_lt_one (by norm_num : (0:ℝ) < 0.25)]
        linarith
      rw [getColor_seg2 (not_lt.mpr h4) h5]
      exact ⟨pyIntR_bounds (by linarith) (by linarith),
        pyIntR_bounds (by linarith) (by linarith),
        pyIntR_bounds (by linarith) (by linarith)⟩
    · rcases lt_or_le (value ^ (0.7 : ℝ)) 0.75 with h6 | h6
      · have ht0 : (0 : ℝ) ≤ (value ^ (0.7 : ℝ) - 0.5) / 0.25 := by
          apply div_nonneg (by linarith) (by norm_num)
        have ht1 : (value ^ (0.7 : ℝ) - 0.5) / 0.25 < 1 := by
          rw [div_lt_one (by norm_num : (0:ℝ) < 0.25)]
          linarith
        rw [getColor_seg3 (not_lt.mpr h5) h6]
        exact ⟨pyIntR_bounds (by linarith) (by linarith),
          pyIntR_bounds (by linarith) (by linarith),
          pyIntR_bounds (by linarith) (by linarith)⟩
      · have ht0 : (0 : ℝ) ≤ (value ^ (0.7 : ℝ) - 0.75) / 0.25 := by
          apply div_nonneg (by linarith) (by norm_num)
        have ht1 : (value ^ (0.7 : ℝ) - 0.75) / 0.25 ≤ 1 := by
          rw [div_le_one (by norm_num : (0:ℝ) < 0.25)]
          linarith
        rw [getColor_seg4 h6]
        exact ⟨⟨by norm_num, by norm_num⟩,
          pyIntR_bounds (by linarith) (by linarith),
          pyIntR_bounds (by linarith) (by linarith)⟩

/-! ### Claim C6 -/

/-- Claim C6: for every normalized input `t ∈ [0, 1]` the color mapping
computes `v = t ^ 0.7` and returns the table's 4-segment piecewise-linear RGB
values (spelled out here for the first segment), with the Red channel exactly
255 when `v ∈ [0.75, 1]`; each channel is truncated (`int(...)` equals the
floor on these non-negative values) and lies in `[0, 255]`; the background
color is exactly `(10, 0, 30)`. -/
theorem claim_C6 (value : ℝ) (h0 : 0 ≤ value) (h1 : value ≤ 1) :
    (value ^ (0.7 : ℝ) < 0.25 →
      getColorForValue value =
        (⌊10 + 50 * (value ^ (0.7 : ℝ) / 0.25)⌋,
         ⌊10 * (value ^ (0.7 : ℝ) / 0.25)⌋,
         ⌊30 + 70 * (value ^ (0.7 : ℝ) / 0.25)⌋)) ∧
    (0.75 ≤ value ^ (0.7 : ℝ) → (getColorForValue value).1 = 255) ∧
    (0 ≤ (getColorForValue value).1 ∧ (getColorForValue value).1 ≤ 255) ∧
    (0 ≤ (getColorForValue value).2.1 ∧ (getColorForValue value).2.1 ≤ 255) ∧
    (0 ≤ (getColorForValue value).2.2 ∧ (getColorForValue value).2.2 ≤ 255) ∧
    BG_COLOR = (10, 0, 30) := by
  have hv0 : (0 : ℝ) ≤ value ^ (0.7 : ℝ) := Real.rpow_nonneg h0 _
  obtain ⟨hb1, hb2, hb3⟩ := getColor_channel_bounds value h0 h1
  refine ⟨?_, ?_, hb1, hb2, hb3, rfl⟩
  · intro h
    have ht0 : (0 : ℝ) ≤ value ^ (0.7 : ℝ) / 0.25 := by positivity
    rw [getColor_seg1 h, pyIntR_eq_floor (by linarith), pyIntR_eq_floor (by linarith),
      pyIntR_eq_floor (by linarith)]
  · intro h
    rw [getColor_seg4 h]

/-- Claim C6, witness: the color map evaluated at the concrete normalized
input `0` satisfies all the stated properties. -/
theorem claim_C6_witness :
    ((0 : ℝ) ^ (0.7 : ℝ) < 0.25 →
      getColorForValue 0 =
        (⌊10 + 50 * ((0 : ℝ) ^ (0.7 : ℝ) / 0.25)⌋,
         ⌊10 * ((0 : ℝ) ^ (0.7 : ℝ) / 0.25)⌋,
         ⌊30 + 70 * ((0 : ℝ) ^ (0.7 : ℝ) / 0.25)⌋)) ∧
    (0.75 ≤ (0 : ℝ) ^ (0.7 : ℝ) → (getColorForValue 0).1 = 255) ∧
    (0 ≤ (getColorForValue 0).1 ∧ (getColorForValue 0).1 ≤ 255) ∧
    (0 ≤ (getColorForValue 0).2.1 ∧ (getColorForValue 0).2.1 ≤ 255) ∧
    (0 ≤ (getColorForValue 0).2.2 ∧ (getColorForValue 0).2.2 ≤ 255) ∧
    BG_COLOR = (10, 0, 30) :=
  claim_C6 0 le_rfl (by norm_num)

/-! ### Claim C8 -/

/-- Claim C8: within each of the four `v`-segments the Red channel is
non-decreasing: for inputs `0 ≤ x ≤ y` whose gamma-corrected values
`x^0.7 ≤ y^0.7` lie in the same segment, the Red channel at `x` is at most the
Red channel at `y`. -/
theorem claim_C8 (x y : ℝ) (hx : 0 ≤ x) (hxy : x ≤ y) :
    (y ^ (0.7 : ℝ) < 0.25 → (getColorForValue x).1 ≤ (getColorForValue y).1) ∧
    (0.25 ≤ x ^ (0.7 : ℝ) → y ^ (0.7 : ℝ) < 0.5 →
      (getColorForValue x).1 ≤ (getColorForValue y).1) ∧
    (0.5 ≤ x ^ (0.7 : ℝ) → y ^ (0.7 : ℝ) < 0.75 →
      (getColorForValue x).1 ≤ (getColorForValue y).1) ∧
    (0.75 ≤ x ^ (0.7 : ℝ) → (getColorForValue x).1 ≤ (getColorForValue y).1) := by
  have hx7 : (0 : ℝ) ≤ x ^ (0.7 : ℝ) := Real.rpow_nonneg hx _
  have hmono : x ^ (0.7 : ℝ) ≤ y ^ (0.7 : ℝ) := Real.rpow_le_rpow hx hxy (by norm_num)
  have h025 : (0 : ℝ) < 0.25 := by norm_num
  refine ⟨?_, ?_, ?_, ?_⟩
  · intro hy
    have hxx : x ^ (0.7 : ℝ) < 0.25 := lt_of_le_of_lt hmono hy
    have hd : x ^ (0.7 : ℝ) / 0.25 ≤ y ^ (0.7 : ℝ) / 0.25 :=
      (div_le_div_right h025).mpr hmono
    have ht0 : (0 : ℝ) ≤ x ^ (0.7 : ℝ) / 0.25 := div_nonneg hx7 h025.le
    rw [getColor_seg1 hxx, getColor_seg1 hy]
    exact pyIntR_le_pyIntR (by linarith) (by linarith)
  · intro hx25 hy5
    have hx5 : x ^ (0.7 : ℝ) < 0.5 := lt_of_le_of_lt hmono hy5
    have hy25 : 0.25 ≤ y ^ (0.7 : ℝ) := le_trans hx25 hmono
    have hd : (x ^ (0.7 : ℝ) - 0.25) / 0.25 ≤ (y ^ (0.7 : ℝ) - 0.25) / 0.25 :=
      (div_le_div_right h025).mpr (by linarith)
    have ht0 : (0 : ℝ) ≤ (x ^ (0.7 : ℝ) - 0.25) / 0.25 :=
      div_nonneg (by linarith) h025.le
    rw [getColor_seg2 (not_lt.mpr hx25) hx5, getColor_seg2 (not_lt.mpr hy25) hy5]
    exact pyIntR_le_pyIntR (by linarith) (by linarith)
  · intro hx5 hy75
    have hx75 : x ^ (0.7 : ℝ) < 0.75 := lt_of_le_of_lt hmono hy75
    have hy5 : 0.5 ≤ y ^ (0.7 : ℝ) := le_trans hx5 hmono
    have hd : (x ^ (0.7 : ℝ) - 0.5) / 0.25 ≤ (y ^ (0.7 : ℝ) - 0.5) / 0.25 :=
      (div_le_div_right h025).mpr (by linarith)
    have ht0 : (0 : ℝ) ≤ (x ^ (0.7 : ℝ) - 0.5) / 0.25 :=
      div_nonneg (by linarith) h025.le
    rw [getColor_seg3 (not_lt.mpr hx5) hx75, getColor_seg3 (not_lt.mpr hy5) hy75]
    exact pyIntR_le_pyIntR (by linarith) (by linarith)
  · intro hx75
    have hy75 : 0.75 ≤ y ^ (0.7 : ℝ) := le_trans hx75 hmono
    rw [getColor_seg4 hx75, getColor_seg4 hy75]

/-- Claim C8, witness: monotonicity instantiated at the concrete inputs
`x = 0`, `y = 1`. -/
theorem claim_C8_witness :
    ((1 : ℝ) ^ (0.7 : ℝ) < 0.25 → (getColorForValue 0).1 ≤ (getColorForValue 1).1) ∧
    (0.25 ≤ (0 : ℝ) ^ (0.7 : ℝ) → (1 : ℝ) ^ (0.7 : ℝ) < 0.5 →
      (getColorForValue 0).1 ≤ (getColorForValue 1).1) ∧
    (0.5 ≤ (0 : ℝ) ^ (0.7 : ℝ) → (1 : ℝ) ^ (0.7 : ℝ) < 0.75 →
      (getColorForValue 0).1 ≤ (getColorForValue 1).1) ∧
    (0.75 ≤ (0 : ℝ) ^ (0.7 : ℝ) → (getColorForValue 0).1 ≤ (getColorForValue 1).1) :=
  claim_C8 0 1 le_rfl (by norm_num)

/-! ### PNG encoder lemmas -/

lemma foldl_append_eq_join {α β : Type} (l : List α) (f : α → List β) :
    l.foldl (fun acc x => acc ++ f x) [] = (l.map f).join := by
  suffices h : ∀ acc : List β,
      l.foldl (fun acc x => acc ++ f x) acc = acc ++ (l.map f).join by
    simpa using h []
  induction l with
  | nil => intro acc; simp
  | cons a t ih => intro acc; simp [ih, List.append_assoc]

lemma rawScanlines_eq_join (img : Image) :
    rawScanlines img =
      ((List.range img.height).map (fun r => 0 :: rowBytes img r)).join := by
  simpa [rawScanlines] using
    foldl_append_eq_join (List.range img.height) (fun r => 0 :: rowBytes img r)

/-! ### Claim C7 -/

/-- Claim C7: the encoder's output is exactly the 8-byte PNG signature, an
IHDR chunk packing width, height, bit depth 8, color type 2, compression 0,
filter 0, interlace 0 big-endian, an IDAT chunk with the deflate-compressed
scanline buffer (each row prefixed by a `0x00` filter byte, top to bottom), and
an empty IEND chunk; every chunk is 4-byte big-endian data length, 4-byte tag,
data, then the big-endian CRC-32 of tag ++ data; no other chunks appear. -/
theorem claim_C7 (compress : List ℕ → List ℕ) (img : Image) :
    encodePng compress img =
      pngSignature ++
      pngChunk tagIHDR (be32 img.width ++ be32 img.height ++ [8, 2, 0, 0, 0]) ++
      pngChunk tagIDAT (compress
        (((List.range img.height).map (fun r => 0 :: rowBytes img r)).join)) ++
      pngChunk tagIEND [] ∧
    (∀ ty data : List ℕ,
      pngChunk ty data = be32 data.length ++ ty ++ data ++ be32 (crc32 (ty ++ data))) ∧
    pngSignature.length = 8 ∧
    (∀ ty data : List ℕ, ty.length = 4 → (pngChunk ty data).length = data.length + 12) := by
  refine ⟨?_, fun ty data => rfl, rfl, ?_⟩
  · simp only [encodePng, rawScanlines_eq_join]
  · intro ty data h
    simp [pngChunk, be32, h]
    omega

/-! ### Claim C9 -/

lemma extractFrameSt_snd (samples : List ℝ) (start : ℕ) :
    (extractFrameSt samples start).2 = samples := by
  simp only [extractFrameSt, npSlice]
  split_ifs <;> rfl

lemma framesSt_snd (samples : List ℝ) (idxs : List ℕ) :
    (framesSt samples idxs).2 = samples := by
  suffices h : ∀ (a : List (List ℝ)) (buf : List ℝ),
      (idxs.foldl (fun acc idx =>
        ((acc.1 ++ [(extractFrameSt acc.2 (idx * HOP_SIZE)).1],
          (extractFrameSt acc.2 (idx * HOP_SIZE)).2) : List (List ℝ) × List ℝ))
        (a, buf)).2 = buf by
    simpa [framesSt] using h [] samples
  induction idxs with
  | nil => intro a buf; rfl
  | cons i t ih =>
    intro a buf
    simp only [List.foldl_cons]
    rw [extractFrameSt_snd buf (i * HOP_SIZE)]
    exact ih _ buf

lemma framesSt_fst (samples : List ℝ) (idxs : List ℕ) :
    (framesSt samples idxs).1 =
      idxs.map (fun idx => extractFrame samples (idx * HOP_SIZE)) := by
  suffices h : ∀ a : List (List ℝ),
      (idxs.foldl (fun acc idx =>
        ((acc.1 ++ [(extractFrameSt acc.2 (idx * HOP_SIZE)).1],
          (extractFrameSt acc.2 (idx * HOP_SIZE)).2) : List (List ℝ) × List ℝ))
        (a, samples)).1 =
        a ++ idxs.map (fun idx => extractFrame samples (idx * HOP_SIZE)) by
    simpa [framesSt] using h []
  induction idxs with
  | nil => intro a; simp
  | cons i t ih =>
    intro a
    simp only [List.foldl_cons, List.map_cons]
    rw [extractFrameSt_snd samples (i * HOP_SIZE), ih]
    simp [extractFrame, List.append_assoc]

/-- Claim C9: the spectral analysis never modifies the input sample buffer:
after `_compute_spectrogram` (modelled with the buffer threaded through every
array operation as explicit state) the buffer equals its initial value,
element by element. -/
theorem claim_C9 (samples : List ℝ) (maxDuration : Option ℚ) (duration : ℚ) :
    (computeSpectrogramSt samples maxDuration duration).2 = samples ∧
    ∀ i : ℕ, ((computeSpectrogramSt samples maxDuration duration).2).getD i 0 =
      samples.getD i 0 := by
  have h : (computeSpectrogramSt samples maxDuration duration).2 = samples := by
    simp only [computeSpectrogramSt]
    exact framesSt_snd _ _
  exact ⟨h, fun i => by rw [h]⟩

/-! ### The pixel-filling loops in the `Option` monad -/

lemma fillRows_some (colorAt : ℕ → ℕ → ℤ × ℤ × ℤ) (col : ℕ) :
    ∀ (rows : List ℕ) (img : Image), col < img.width → (∀ r ∈ rows, r < img.height) →
    ∃ img2,
      rows.foldlM (fun im row => writePixel im row col (colorAt col row)) img = some img2 ∧
      img2.height = img.height ∧ img2.width = img.width ∧
      ∀ r c, img2.pix r c =
        if c = col ∧ r ∈ rows then colorMod (colorAt col r) else img.pix r c := by
  intro rows
  induction rows with
  | nil =>
    intro img hcol hrows
    exact ⟨img, rfl, rfl, rfl, by simp⟩
  | cons a t ih =>
    intro img hcol hrows
    have ha : a < img.height := hrows a (by simp)
    have hw : writePixel img a col (colorAt col a) =
        some { img with pix := fun r q =>
          if r = a ∧ q = col then colorMod (colorAt col a) else img.pix r q } := by
      rw [writePixel, if_pos ⟨ha, hcol⟩]
    obtain ⟨img2, hfold, hh, hwid, hpix⟩ := ih
      { img with pix := fun r q =>
          if r = a ∧ q = col then colorMod (colorAt col a) else img.pix r q }
      hcol (fun r hr => hrows r (List.mem_cons_of_mem _ hr))
    refine ⟨img2, ?_, hh, hwid, ?_⟩
    · rw [List.foldlM_cons, hw]
      exact hfold
    · intro r c
      rw [hpix r c]
      by_cases h1 : c = col ∧ r ∈ t
      · rw [if_pos h1, if_pos ⟨h1.1, List.mem_cons_of_mem _ h1.2⟩]
      · rw [if_neg h1]
        by_cases h2 : r = a ∧ c = col
        · obtain ⟨hr2, hc2⟩ := h2
          subst hr2
          subst hc2
          simp
        · have hno : ¬ (c = col ∧ r ∈ a :: t) := by
            rintro ⟨hc, hmem⟩
            rcases List.mem_cons.mp hmem with h | h
            · exact h2 ⟨h, hc⟩
            · exact h1 ⟨hc, h⟩
          rw [if_neg hno]
          simp only []
          rw [if_neg (by rintro ⟨hr, hc⟩; exact h2 ⟨hr, hc⟩)]

lemma fillColumn_some (colorAt : ℕ → ℕ → ℤ × ℤ × ℤ) (col : ℕ) (img : Image)
    (hcol : col < img.width) (hh : img.height = displayHeight) :
    ∃ img2, fillColumn colorAt col img = some img2 ∧
      img2.height = img.height ∧ img2.width = img.width ∧
      ∀ r c, img2.pix r c =
        if c = col ∧ r < displayHeight then colorMod (colorAt col r) else img.pix r c := by
  obtain ⟨img2, hfold, hh2, hw2, hpix⟩ := fillRows_some colorAt col
    (List.range displayHeight) img hcol
    (fun r hr => by rw [hh]; exact List.mem_range.mp hr)
  refine ⟨img2, hfold, hh2, hw2, ?_⟩
  intro r c
  rw [hpix r c]
  by_cases h : c = col ∧ r < displayHeight
  · rw [if_pos ⟨h.1, List.mem_range.mpr h.2⟩, if_pos h]
  · rw [if_neg (by rintro ⟨hc, hm⟩; exact h ⟨hc, List.mem_range.mp hm⟩), if_neg h]

lemma fillColumn_none (colorAt : ℕ → ℕ → ℤ × ℤ × ℤ) (col : ℕ) (img : Image)
    (hcol : img.width ≤ col) : fillColumn colorAt col img = none := by
  have h200 : displayHeight = 200 := by decide
  rw [fillColumn, h200, show (200 : ℕ) = 199 + 1 from rfl, List.range_succ_eq_map,
    List.foldlM_cons]
  have hw : writePixel img 0 col (colorAt col 0) = none := by
    rw [writePixel, if_neg]
    rintro ⟨-, hc⟩
    exact absurd hc (not_lt.mpr hcol)
  rw [hw]
  rfl

lemma fillCols_some (colorAt : ℕ → ℕ → ℤ × ℤ × ℤ) :
    ∀ (cols : List ℕ) (img : Image), img.height = displayHeight →
    (∀ c ∈ cols, c < img.width) →
    ∃ img2,
      cols.foldlM (fun im col => fillColumn colorAt col im) img = some img2 ∧
      img2.height = img.height ∧ img2.width = img.width ∧
      ∀ r c, img2.pix r c =
        if c ∈ cols ∧ r < displayHeight then colorMod (colorAt c r) else img.pix r c := by
  intro cols
  induction cols with
  | nil =>
    intro img hh hcols
    exact ⟨img, rfl, rfl, rfl, by simp⟩
  | cons a t ih =>
    intro img hh hcols
    obtain ⟨img1, h1, hh1, hw1, hpix1⟩ :=
      fillColumn_some colorAt a img (hcols a (by simp)) hh
    obtain ⟨img2, h2, hh2, hw2, hpix2⟩ := ih img1 (hh1.trans hh)
      (fun c hc => hw1 ▸ hcols c (List.mem_cons_of_mem _ hc))
    refine ⟨img2, ?_, hh2.trans hh1, hw2.trans hw1, ?_⟩
    · rw [List.foldlM_cons, h1]
      exact h2
    · intro r c
      rw [hpix2 r c]
      by_cases hc1 : c ∈ t ∧ r < displayHeight
      · rw [if_pos hc1, if_pos ⟨List.mem_cons_of_mem _ hc1.1, hc1.2⟩]
      · rw [if_neg hc1, hpix1 r c]
        by_cases hc2 : c = a ∧ r < displayHeight
        · rw [if_pos hc2, if_pos ⟨by rw [hc2.1]; exact List.mem_cons_self _ _, hc2.2⟩,
            hc2.1]
        · have hno : ¬ (c ∈ a :: t ∧ r < displayHeight) := by
            rintro ⟨hmem, hr⟩
            rcases List.mem_cons.mp hmem with h | h
            · exact hc2 ⟨h, hr⟩
            · exact hc1 ⟨h, hr⟩
          rw [if_neg hc2, if_neg hno]

lemma fillCols_none (colorAt : ℕ → ℕ → ℤ × ℤ × ℤ) :
    ∀ (pre : List ℕ) (c0 : ℕ) (post : List ℕ) (img : Image),
    img.height = displayHeight → (∀ c ∈ pre, c < img.width) → img.width ≤ c0 →
    (pre ++ c0 :: post).foldlM (fun im col => fillColumn colorAt col im) img = none := by
  intro pre
  induction pre with
  | nil =>
    intro c0 post img _ _ hc0
    rw [List.nil_append, List.foldlM_cons, fillColumn_none colorAt c0 img hc0]
    rfl
  | cons a t ih =>
    intro c0 post img hh hpre hc0
    obtain ⟨img1, h1, hh1, hw1, -⟩ :=
      fillColumn_some colorAt a img (hpre a (by simp)) hh
    rw [List.cons_append, List.foldlM_cons, h1]
    exact ih c0 post img1 (hh1.trans hh)
      (fun c hc => hw1 ▸ hpre c (List.mem_cons_of_mem _ hc)) (hw1 ▸ hc0)

/-! ### Totality of the analyzer -/

lemma framesSt_fst_length (samples : List ℝ) (idxs : List ℕ) :
    (framesSt samples idxs).1.length = idxs.length := by
  rw [framesSt_fst]
  simp

lemma frameIndices_length (n : ℕ) (md : Option ℚ) (d : ℚ) :
    (frameIndices n md d).length =
      (numFrames n + frameStep n md d - 1) / frameStep n md d := by
  simp [frameIndices, strideRange]

lemma one_le_frameStep (n : ℕ) (md : Option ℚ) (d : ℚ) : 1 ≤ frameStep n md d :=
  le_max_left _ _

lemma frameIndices_length_pos (n : ℕ) (md : Option ℚ) (d : ℚ) :
    0 < (frameIndices n md d).length := by
  rw [frameIndices_length]
  have hst := one_le_frameStep n md d
  have hnf := one_le_numFrames n
  exact (Nat.one_le_div_iff hst).mpr (by omega)

lemma frameIndices_length_le (n : ℕ) (md : Option ℚ) (d : ℚ) :
    (frameIndices n md d).length ≤ numFrames n := by
  rw [frameIndices_length]
  have hst := one_le_frameStep n md d
  have hnf := one_le_numFrames n
  have hmul : numFrames n ≤ frameStep n md d * numFrames n :=
    Nat.le_mul_of_pos_left _ hst
  rw [Nat.div_le_iff_le_mul_add_pred hst]
  omega

lemma computeSpectrogram_isSome (samples : List ℝ) (md : Option ℚ) (d : ℚ)
    (h : spectrogramWidth samples.length md d ≤ displayWidth samples.length ∨
      numFrames samples.length ≤ MAX_WIDTH) :
    ∃ img, computeSpectrogram samples md d = some img ∧
      img.height = displayHeight ∧ img.width = displayWidth samples.length := by
  have hcols : min ((framesSt samples (frameIndices samples.length md d)).1.map dbRow).length
      (spectrogramWidth samples.length md d) ≤ displayWidth samples.length := by
    rcases h with h | h
    · exact le_trans (min_le_right _ _) h
    · have hdw : displayWidth samples.length = numFrames samples.length :=
        min_eq_left h
      have hlen : ((framesSt samples (frameIndices samples.length md d)).1.map
          dbRow).length ≤ numFrames samples.length := by
        rw [List.length_map, framesSt_fst_length]
        exact frameIndices_length_le _ _ _
      rw [hdw]
      exact le_trans (min_le_left _ _) hlen
  obtain ⟨img2, hfold, hh2, hw2, -⟩ := fillCols_some
    (pixelColor ((framesSt samples (frameIndices samples.length md d)).1.map dbRow)
      ((maxMagnitudeW ((framesSt samples
        (frameIndices samples.length md d)).1.map dbRow)).unbot' 0)
      ((maxMagnitudeW ((framesSt samples
        (frameIndices samples.length md d)).1.map dbRow)).unbot' 0 - 80))
    (List.range (min ((framesSt samples
      (frameIndices samples.length md d)).1.map dbRow).length
      (spectrogramWidth samples.length md d)))
    ⟨displayHeight, displayWidth samples.length, fun _ _ => BG_COLOR⟩
    rfl
    (fun c hc => lt_of_lt_of_le (List.mem_range.mp hc) hcols)
  refine ⟨img2, ?_, hh2, hw2⟩
  simp only [computeSpectrogram, computeSpectrogramSt, fillImage]
  exact hfold

/-! ### Claim C2 -/

lemma encodePng_take_signature (compress : List ℕ → List ℕ) (img : Image) :
    (encodePng compress img).take 8 = pngSignature := by
  simp only [encodePng, List.append_assoc]
  exact List.take_left pngSignature
    (pngChunk tagIHDR (be32 img.width ++ (be32 img.height ++ [8, 2, 0, 0, 0])) ++
      (pngChunk tagIDAT (compress (rawScanlines img)) ++ pngChunk tagIEND []))

lemma spectrogramWidth_eval_205824 : spectrogramWidth 205824 (some 1) 2 = 1600 := by
  have h : numFrames 205824 = 801 := by decide
  simp only [spectrogramWidth, displayWidth, durationRatio, h]
  norm_num [pyInt, MAX_WIDTH] <;> decide

/-- Claim C2, counterexample: for a buffer of 205824 samples (`num_frames =
801`, `display_width = 800`) with `max_duration = 1.0` and `duration = 2.0`,
`spectrogram_width = 1600`, `frame_step = 1`, 801 magnitude rows are computed,
and `actual_cols = min(801, 1600) = 801 > 800`, so the per-pixel write loop
indexes column 800 of an 800-wide image and the analyzer raises `IndexError`
(modelled as `none`): `_compute_spectrogram` is not total. -/
theorem claim_C2_counterexample :
    computeSpectrogram (List.replicate 205824 (0 : ℝ)) (some 1) 2 = none := by
  have hlen : (List.replicate 205824 (0 : ℝ)).length = 205824 :=
    List.length_replicate _ _
  have hnf : numFrames 205824 = 801 := by decide
  have hsw := spectrogramWidth_eval_205824
  have hdw : displayWidth 205824 = 800 := by decide
  have hfs : frameStep 205824 (some 1) 2 = 1 := by
    simp only [frameStep, hnf, hsw]
    decide
  have hidx : (frameIndices 205824 (some 1) 2).length = 801 := by
    rw [frameIndices_length, hnf, hfs]
  have hrl : ((framesSt (List.replicate 205824 (0 : ℝ))
      (frameIndices 205824 (some 1) 2)).1.map dbRow).length = 801 := by
    rw [List.length_map, framesSt_fst_length, hidx]
  simp only [computeSpectrogram, computeSpectrogramSt, hlen]
  rw [hrl, hsw, show min 801 1600 = 801 from by decide, fillImage,
    show (801 : ℕ) = 800 + 1 from rfl, List.range_succ]
  exact fillCols_none _ (List.range 800) 800 []
    ⟨displayHeight, displayWidth 205824, fun _ _ => BG_COLOR⟩ rfl
    (fun c hc => by
      have hc800 : c < 800 := List.mem_range.mp hc
      show c < displayWidth 205824
      omega)
    (by show displayWidth 205824 ≤ 800; omega)

/-- Claim C2, amended: the encoder is total (its output always starts with the
8-byte signature and is produced for every well-formed grid), and the analyzer
runs to completion whenever `spectrogram_width ≤ display_width` or
`num_frames ≤ MAX_WIDTH`; without that condition (possible only when
`max_duration` is provided and `duration` exceeds it) the write loop can index
outside the image and raise. -/
theorem claim_C2_amended (samples : List ℝ) (md : Option ℚ) (d : ℚ)
    (h : spectrogramWidth samples.length md d ≤ displayWidth samples.length ∨
      numFrames samples.length ≤ MAX_WIDTH) :
    (computeSpectrogram samples md d).isSome ∧
    ∀ (compress : List ℕ → List ℕ) (img : Image),
      (encodePng compress img).take 8 = pngSignature := by
  obtain ⟨img, himg, -, -⟩ := computeSpectrogram_isSome samples md d h
  exact ⟨by rw [himg]; rfl, encodePng_take_signature⟩

/-- Claim C2, witness: the empty sample buffer (`num_frames = 1 ≤ 800`)
satisfies the safe-dimension condition and the analyzer succeeds on it. -/
theorem claim_C2_witness :
    (computeSpectrogram ([] : List ℝ) none 0).isSome ∧
    ∀ (compress : List ℕ → List ℕ) (img : Image),
      (encodePng compress img).take 8 = pngSignature :=
  claim_C2_amended [] none 0 (Or.inr (by decide))

/-! ### Claim C4 -/

lemma hannWindow_length (size : ℕ) : (hannWindow size).length = size := by
  rw [hannWindow, List.length_map, List.length_range]

lemma getD_zipWith_mul (l₁ l₂ : List ℝ) (i : ℕ) (h1 : i < l₁.length)
    (h2 : i < l₂.length) :
    (List.zipWith (fun a b => a * b) l₁ l₂).getD i 0 = l₁.getD i 0 * l₂.getD i 0 := by
  rw [List.getD_eq_getElem _ _ (by rw [List.length_zipWith]; omega),
    List.getD_eq_getElem _ _ h1, List.getD_eq_getElem _ _ h2, List.getElem_zipWith]

lemma getD_take (l : List ℝ) (n i : ℕ) (h : i < n) (h2 : i < l.length) :
    (l.take n).getD i 0 = l.getD i 0 := by
  rw [List.getD_eq_getElem _ _ (by rw [List.length_take]; omega),
    List.getD_eq_getElem _ _ h2, List.getElem_take]

lemma getD_replicate {α : Type} (n i : ℕ) (a d : α) :
    (List.replicate n a).getD i d = if i < n then a else d := by
  rw [List.getD_eq_getElem?_getD, List.getElem?_replicate]
  split_ifs <;> rfl

lemma numFrames_one {n : ℕ} (h : n < FFT_SIZE) : numFrames n = 1 := by
  have hfd : ((n : ℤ) - (FFT_SIZE : ℤ)).fdiv (HOP_SIZE : ℤ) + 1 ≤ 0 := by
    have he := Int.fdiv_eq_ediv ((n : ℤ) - (FFT_SIZE : ℤ))
      (by norm_num [HOP_SIZE] : (0 : ℤ) ≤ (HOP_SIZE : ℤ))
    have hn : (n : ℤ) < (FFT_SIZE : ℤ) := by exact_mod_cast h
    simp only [FFT_SIZE, HOP_SIZE] at he hn ⊢
    omega
  rw [numFrames, max_eq_left (le_trans hfd zero_le_one)]
  rfl

lemma frameIndices_short {n : ℕ} (md : Option ℚ) (d : ℚ) (h : n < FFT_SIZE) :
    frameIndices n md d = [0] := by
  have hst := one_le_frameStep n md d
  rw [frameIndices, strideRange, numFrames_one h,
    show 1 + frameStep n md d - 1 = frameStep n md d from by omega,
    Nat.div_self hst, show List.range 1 = [0] from rfl]
  simp

lemma extractFrame_short (samples : List ℝ) (h : samples.length < FFT_SIZE) :
    (extractFrame samples 0).length = FFT_SIZE ∧
    ∀ i, i < FFT_SIZE →
      (extractFrame samples 0).getD i 0 =
        if i < samples.length then samples.getD i 0 * (hannWindow FFT_SIZE).getD i 0
        else 0 := by
  have hwl : (hannWindow FFT_SIZE).length = FFT_SIZE := hannWindow_length _
  rcases Nat.eq_zero_or_pos samples.length with h0 | h0
  · have hfr : extractFrame samples 0 = List.replicate FFT_SIZE (0 : ℝ) := by
      rw [extractFrame, extractFrameSt]
      rw [if_neg (by omega), if_neg (by omega)]
    rw [hfr]
    refine ⟨List.length_replicate _ _, fun i hi => ?_⟩
    rw [getD_replicate, if_pos hi, if_neg (by omega)]
  · have hcond : ¬ (0 + FFT_SIZE ≤ samples.length) := by omega
    have hfr : extractFrame samples 0 =
        npSetSlice (List.replicate FFT_SIZE (0 : ℝ)) samples.length
          (List.zipWith (fun a b => a * b) samples
            ((hannWindow FFT_SIZE).take samples.length)) := by
      rw [extractFrame, extractFrameSt, if_neg hcond, if_pos (by omega)]
      simp only [npSlice, Nat.sub_zero, List.drop_zero, List.take_length]
    have hvl : (List.zipWith (fun a b => a * b) samples
        ((hannWindow FFT_SIZE).take samples.length)).length = samples.length := by
      rw [List.length_zipWith, List.length_take, hwl]
      omega
    have hsetl : (extractFrame samples 0).length = FFT_SIZE := by
      rw [hfr, npSetSlice, List.length_append, List.length_take, List.length_drop,
        List.length_replicate]
      omega
    refine ⟨hsetl, fun i hi => ?_⟩
    rw [hfr, npSetSlice]
    rcases lt_or_le i samples.length with hlt | hle
    · rw [List.getD_append _ _ _ _ (by rw [List.length_take]; omega), if_pos hlt,
        getD_take _ _ _ hlt (by omega), getD_zipWith_mul _ _ _ (by omega) (by
          rw [List.length_take, hwl]; omega),
        getD_take _ _ _ hlt (by rw [hwl]; omega)]
    · rw [List.getD_append_right _ _ _ _ (by rw [List.length_take]; omega),
        if_neg (by omega)]
      rw [List.getD_eq_getElem?_getD, List.getElem?_drop, List.getElem?_replicate]
      split_ifs <;> rfl

/-- Claim C4: `num_frames = max(1, floor((N − FFT_SIZE) / HOP_SIZE) + 1)` in
general; for every buffer with fewer than `FFT_SIZE = 1024` samples (including
the empty buffer) this equals 1 and exactly one frame is analyzed, formed by
windowing the in-bounds samples and zero-padding to length `FFT_SIZE`, and the
analyzer runs to completion. -/
theorem claim_C4 (samples : List ℝ) (md : Option ℚ) (d : ℚ)
    (h : samples.length < FFT_SIZE) :
    (∀ n : ℕ, numFrames n =
      (max 1 (((n : ℤ) - (FFT_SIZE : ℤ)).fdiv (HOP_SIZE : ℤ) + 1)).toNat) ∧
    numFrames samples.length = 1 ∧
    (framesSt samples (frameIndices samples.length md d)).1 =
      [extractFrame samples 0] ∧
    (extractFrame samples 0).length = FFT_SIZE ∧
    (∀ i, i < FFT_SIZE →
      (extractFrame samples 0).getD i 0 =
        if i < samples.length then samples.getD i 0 * (hannWindow FFT_SIZE).getD i 0
        else 0) ∧
    (computeSpectrogram samples md d).isSome := by
  obtain ⟨hlen, hget⟩ := extractFrame_short samples h
  refine ⟨fun n => rfl, numFrames_one h, ?_, hlen, hget, ?_⟩
  · rw [framesSt_fst, frameIndices_short md d h]
    simp
  · obtain ⟨img, himg, -, -⟩ := computeSpectrogram_isSome samples md d
      (Or.inr (by rw [numFrames_one h]; decide))
    rw [himg]
    rfl

/-- Claim C4, witness: a buffer of 500 zero samples is analyzed as a single
zero-padded frame without error. -/
theorem claim_C4_witness :
    numFrames (List.replicate 500 (0 : ℝ)).length = 1 ∧
    (computeSpectrogram (List.replicate 500 (0 : ℝ)) none 0).isSome :=
  ⟨(claim_C4 (List.replicate 500 (0 : ℝ)) none 0
      (by rw [List.length_replicate]; decide)).2.1,
    (claim_C4 (List.replicate 500 (0 : ℝ)) none 0
      (by rw [List.length_replicate]; decide)).2.2.2.2.2⟩

/-! ### The all-zero sample buffer (Claim C5) -/

lemma zipWith_mul_replicate_zero (n : ℕ) (l : List ℝ) :
    List.zipWith (fun a b => a * b) (List.replicate n (0 : ℝ)) l =
      List.replicate (min n l.length) 0 := by
  induction l generalizing n with
  | nil => simp
  | cons a t ih =>
    cases n with
    | zero => simp
    | succ m =>
      rw [List.replicate_succ, List.zipWith_cons_cons, ih, zero_mul, List.length_cons,
        Nat.succ_min_succ, List.replicate_succ]

lemma extractFrame_zero_full (n start : ℕ) (h : start + FFT_SIZE ≤ n) :
    extractFrame (List.replicate n (0 : ℝ)) start = List.replicate FFT_SIZE 0 := by
  rw [extractFrame, extractFrameSt, if_pos (by rw [List.length_replicate]; exact h)]
  simp only [npSlice, List.drop_replicate, List.take_replicate]
  rw [zipWith_mul_replicate_zero, hannWindow_length]
  congr 1
  omega

lemma rfft_replicate_zero :
    rfft (List.replicate FFT_SIZE (0 : ℝ)) = List.replicate 513 (0 : ℂ) := by
  apply List.eq_replicate.mpr
  constructor
  · rw [rfft, List.length_map, List.length_range, List.length_replicate]
    decide
  · intro z hz
    rw [rfft] at hz
    obtain ⟨k, -, rfl⟩ := List.mem_map.mp hz
    apply List.sum_eq_zero
    intro x hx
    obtain ⟨j, -, rfl⟩ := List.mem_map.mp hx
    rw [getD_replicate]
    split_ifs <;> simp

lemma db_of_eps : 20 * Real.logb 10 EPS = -200 := by
  have h1 : EPS = ((10 : ℝ) ^ (10 : ℕ))⁻¹ := by norm_num [EPS]
  rw [h1, Real.logb_inv,
    show ((10 : ℝ) ^ (10 : ℕ)) = (10 : ℝ) ^ ((10 : ℕ) : ℝ) from
      (Real.rpow_natCast 10 10).symm,
    Real.logb_rpow (by norm_num) (by norm_num)]
  norm_num

lemma dbRow_zero_frame :
    dbRow (List.replicate FFT_SIZE (0 : ℝ)) = List.replicate 400 (-200 : ℝ) := by
  rw [dbRow, rfft_replicate_zero, List.take_replicate,
    show min useBins 513 = 400 from by decide, List.map_replicate]
  congr 1
  rw [map_zero, zero_add, db_of_eps]

lemma listMaxW_replicate (n : ℕ) (h : 0 < n) (a : ℝ) :
    listMaxW (List.replicate n a) = (a : WithBot ℝ) := by
  have hfold : ∀ (k : ℕ) (m : WithBot ℝ),
      (List.replicate (k + 1) a).foldl (fun m (x : ℝ) => max m ((x : WithBot ℝ))) m =
        max m (a : WithBot ℝ) := by
    intro k
    induction k with
    | zero => intro m; rfl
    | succ j ih =>
      intro m
      rw [List.replicate_succ, List.foldl_cons, ih, max_assoc, max_self]
  obtain ⟨k, rfl⟩ := Nat.exists_eq_add_of_lt h
  rw [listMaxW, show 0 + k + 1 = k + 1 from by omega, hfold]
  exact max_eq_right bot_le

lemma maxMagnitudeW_replicate_fold (row : List ℝ) :
    ∀ (n : ℕ) (m : WithBot ℝ),
      (List.replicate n row).foldl
        (fun m r => if m < listMaxW r then listMaxW r else m) m =
      if n = 0 then m else (if m < listMaxW row then listMaxW row else m) := by
  intro n
  induction n with
  | zero => intro m; simp
  | succ k ih =>
    intro m
    rw [List.replicate_succ, List.foldl_cons, ih]
    by_cases hk : k = 0
    · simp [hk]
    · rw [if_neg hk, if_neg (Nat.succ_ne_zero k)]
      by_cases hm : m < listMaxW row
      · rw [if_pos hm, if_neg (lt_irrefl _)]
      · rw [if_neg hm, if_neg hm]

lemma maxMagnitudeW_silence :
    maxMagnitudeW (List.replicate 169 (List.replicate 400 (-200 : ℝ))) =
      ((-200 : ℝ) : WithBot ℝ) := by
  rw [maxMagnitudeW, maxMagnitudeW_replicate_fold, if_neg (by omega),
    listMaxW_replicate 400 (by omega), if_pos (WithBot.bot_lt_coe _)]

lemma EPS_pos_lt_one : (0 : ℝ) < EPS ∧ EPS < 0.1 := by norm_num [EPS]

lemma getColor_silence :
    getColorForValue ((80 : ℝ) / (80 + EPS)) = (255, 254, 199) := by
  obtain ⟨hE0, hE1⟩ := EPS_pos_lt_one
  have hden : (0 : ℝ) < 80 + EPS := by linarith
  have hx0 : (0 : ℝ) < 80 / (80 + EPS) := by positivity
  have hx1 : (80 : ℝ) / (80 + EPS) < 1 := by
    rw [div_lt_one hden]
    linarith
  have hxlb : (599 / 600 : ℝ) ≤ 80 / (80 + EPS) := by
    rw [div_le_div_iff (by norm_num) hden]
    linarith
  have hvlb : (80 : ℝ) / (80 + EPS) ≤ ((80 : ℝ) / (80 + EPS)) ^ (0.7 : ℝ) := by
    have h := Real.rpow_le_rpow_of_exponent_ge hx0 hx1.le
      (by norm_num : (0.7 : ℝ) ≤ 1)
    rwa [Real.rpow_one] at h
  have hvub : ((80 : ℝ) / (80 + EPS)) ^ (0.7 : ℝ) < 1 :=
    Real.rpow_lt_one hx0.le hx1 (by norm_num)
  have h75 : (0.75 : ℝ) ≤ ((80 : ℝ) / (80 + EPS)) ^ (0.7 : ℝ) := by linarith
  rw [getColor_seg4 h75]
  have ht : (((80 : ℝ) / (80 + EPS)) ^ (0.7 : ℝ) - 0.75) / 0.25 =
      4 * ((80 : ℝ) / (80 + EPS)) ^ (0.7 : ℝ) - 3 := by ring
  have hG : pyIntR (140 + 115 * ((((80 : ℝ) / (80 + EPS)) ^ (0.7 : ℝ) - 0.75) / 0.25))
      = 254 := by
    rw [ht, pyIntR_eq_floor (by linarith)]
    apply Int.floor_eq_iff.mpr
    refine ⟨by push_cast; linarith, by push_cast; linarith⟩
  have hB : pyIntR (50 + 150 * ((((80 : ℝ) / (80 + EPS)) ^ (0.7 : ℝ) - 0.75) / 0.25))
      = 199 := by
    rw [ht, pyIntR_eq_floor (by linarith)]
    apply Int.floor_eq_iff.mpr
    refine ⟨by push_cast; linarith, by push_cast; linarith⟩
  rw [hG, hB]

lemma pixelColor_silence (c r : ℕ) (hc : c < 169) :
    pixelColor (List.replicate 169 (List.replicate 400 (-200 : ℝ)))
      (-200) (-200 - 80) c r = (255, 254, 199) := by
  obtain ⟨hE0, hE1⟩ := EPS_pos_lt_one
  have hbin : binIdx r (List.replicate 400 (-200 : ℝ)).length displayHeight < 400 := by
    rw [List.length_replicate]
    exact lt_of_le_of_lt (min_le_right _ _) (by norm_num)
  have hfm : (List.replicate 169 (List.replicate 400 (-200 : ℝ))).getD c ([] : List ℝ) =
      List.replicate 400 (-200 : ℝ) := by
    rw [getD_replicate, if_pos hc]
  have hdb : (List.replicate 400 (-200 : ℝ)).getD
      (binIdx r (List.replicate 400 (-200 : ℝ)).length displayHeight) 0 = -200 := by
    rw [getD_replicate, if_pos hbin]
  simp only [pixelColor, normalizedValue, hfm, hdb]
  have harith : (-200 : ℝ) - (-200 - 80) = 80 := by norm_num
  rw [harith]
  have hden : (0 : ℝ) < 80 + EPS := by linarith
  have hle1 : (80 : ℝ) / (80 + EPS) ≤ 1 := by
    rw [div_le_one hden]
    linarith
  have h0le : (0 : ℝ) ≤ 80 / (80 + EPS) := by positivity
  rw [min_eq_right hle1, max_eq_right h0le, getColor_silence]

lemma numFrames_44100 : numFrames 44100 = 169 := by decide

lemma spectrogramWidth_44100 : spectrogramWidth 44100 none 1 = 169 := by
  have h : numFrames 44100 = 169 := by decide
  simp only [spectrogramWidth, displayWidth, durationRatio, h]
  norm_num [pyInt, MAX_WIDTH] <;> decide

lemma frameStep_44100 : frameStep 44100 none 1 = 1 := by
  simp only [frameStep, numFrames_44100, spectrogramWidth_44100]
  decide

lemma frameIndices_44100 :
    frameIndices 44100 none 1 = (List.range 169).map (fun i => i * 1) := by
  rw [frameIndices, strideRange, numFrames_44100, frameStep_44100]

lemma silence_rows :
    (framesSt (List.replicate 44100 (0 : ℝ)) (frameIndices 44100 none 1)).1.map dbRow =
      List.replicate 169 (List.replicate 400 (-200 : ℝ)) := by
  apply List.eq_replicate.mpr
  constructor
  · rw [List.length_map, framesSt_fst_length, frameIndices_44100, List.length_map,
      List.length_range]
  · intro row hrow
    rw [framesSt_fst, frameIndices_44100] at hrow
    obtain ⟨fr, hfr, rfl⟩ := List.mem_map.mp hrow
    obtain ⟨idx, hidx, rfl⟩ := List.mem_map.mp hfr
    obtain ⟨i, hi, rfl⟩ := List.mem_map.mp hidx
    have hi169 : i < 169 := List.mem_range.mp hi
    have hstart : i * 1 * HOP_SIZE + FFT_SIZE ≤ 44100 := by
      simp only [HOP_SIZE, FFT_SIZE, Nat.mul_one]
      omega
    rw [extractFrame_zero_full 44100 (i * 1 * HOP_SIZE) hstart, dbRow_zero_frame]

set_option maxRecDepth 4000 in
lemma silence_image :
    computeSpectrogram (List.replicate 44100 (0 : ℝ)) none 1 =
      some ⟨displayHeight, 169, fun r c =>
        if c < 169 ∧ r < displayHeight then ((255 : ℤ), (254 : ℤ), (199 : ℤ))
        else BG_COLOR⟩ := by
  have hdw : displayWidth 44100 = 169 := by decide
  simp only [computeSpectrogram, computeSpectrogramSt, List.length_replicate]
  rw [silence_rows, maxMagnitudeW_silence, WithBot.unbot'_coe, List.length_replicate,
    spectrogramWidth_44100, show min 169 169 = 169 from rfl, fillImage]
  obtain ⟨img2, hfold, hh2, hw2, hpix⟩ := fillCols_some
    (pixelColor (List.replicate 169 (List.replicate 400 (-200 : ℝ))) (-200) (-200 - 80))
    (List.range 169) ⟨displayHeight, displayWidth 44100, fun _ _ => BG_COLOR⟩ rfl
    (fun c hc => by
      have hc169 := List.mem_range.mp hc
      show c < displayWidth 44100
      omega)
  rw [hfold]
  congr 1
  apply Image.ext
  · exact hh2
  · rw [hw2]
    exact hdw
  · funext r c
    rw [hpix r c]
    by_cases hcr : c < 169 ∧ r < displayHeight
    · rw [if_pos ⟨List.mem_range.mpr hcr.1, hcr.2⟩, pixelColor_silence c r hcr.1]
      show colorMod ((255 : ℤ), (254 : ℤ), (199 : ℤ)) =
        if c < 169 ∧ r < displayHeight then ((255 : ℤ), (254 : ℤ), (199 : ℤ))
        else BG_COLOR
      rw [if_pos hcr]
      decide
    · rw [if_neg (fun hx => hcr ⟨List.mem_range.mp hx.1, hx.2⟩)]
      show BG_COLOR =
        if c < 169 ∧ r < displayHeight then ((255 : ℤ), (254 : ℤ), (199 : ℤ))
        else BG_COLOR
      rw [if_neg hcr]

/-! ### Claim C5 -/

/-- Claim C5, counterexample: for the all-zero buffer of 44100 samples with
`max_duration` absent, the pixel at `(0, 0)` of the resulting grid is
`(255, 254, 199)`, not the background color `(10, 0, 30)`: because every dB
value equals the maximum, the normalized value is `80 / (80 + 1e-10) ≈ 1`
(not 0), and the brightest gradient color is written everywhere. -/
theorem claim_C5_counterexample :
    Option.map (fun img => img.pix 0 0)
      (computeSpectrogram (List.replicate 44100 (0 : ℝ)) none 1) =
      some ((255 : ℤ), (254 : ℤ), (199 : ℤ)) ∧
    ((255 : ℤ), (254 : ℤ), (199 : ℤ)) ≠ BG_COLOR := by
  rw [silence_image]
  exact ⟨by decide, by decide⟩

/-- Claim C5, amended: for the all-zero buffer of 44100 samples with
`max_duration` absent: `num_frames = 169`; every computed dB magnitude equals
`20·log10(1e-10) = -200`, hence `max_magnitude = -200` and
`min_db = -200 - 80 = -280`; consequently every normalized value equals
`80 / (80 + 1e-10)` (approximately 1, not 0), and every foreground pixel of the
resulting grid is `get_color(80/(80+1e-10)) = (255, 254, 199)`, which differs
from the background color. -/
theorem claim_C5_amended :
    numFrames 44100 = 169 ∧
    (framesSt (List.replicate 44100 (0 : ℝ)) (frameIndices 44100 none 1)).1.map dbRow =
      List.replicate 169 (List.replicate 400 (-200 : ℝ)) ∧
    maxMagnitudeW (List.replicate 169 (List.replicate 400 (-200 : ℝ))) =
      ((-200 : ℝ) : WithBot ℝ) ∧
    20 * Real.logb 10 EPS = -200 ∧
    (-200 : ℝ) - 80 = -280 ∧
    getColorForValue ((80 : ℝ) / (80 + EPS)) = (255, 254, 199) ∧
    computeSpectrogram (List.replicate 44100 (0 : ℝ)) none 1 =
      some ⟨displayHeight, 169, fun r c =>
        if c < 169 ∧ r < displayHeight then ((255 : ℤ), (254 : ℤ), (199 : ℤ))
        else BG_COLOR⟩ :=
  ⟨by decide, silence_rows, maxMagnitudeW_silence, db_of_eps, by norm_num,
    getColor_silence, silence_image⟩

/-! ### Claim C10 -/

lemma extractFrame_length (samples : List ℝ) (start : ℕ) :
    (extractFrame samples start).length = FFT_SIZE := by
  rcases le_or_lt (start + FFT_SIZE) samples.length with h1 | h1
  · rw [extractFrame, extractFrameSt, if_pos h1]
    simp only [npSlice, List.length_zipWith, List.length_take, List.length_drop,
      hannWindow_length]
    omega
  · rcases Nat.eq_zero_or_pos (samples.length - start) with h2 | h2
    · rw [extractFrame, extractFrameSt, if_neg (by omega), if_neg (by omega)]
      simp
    · rw [extractFrame, extractFrameSt, if_neg (by omega), if_pos h2]
      simp only [npSetSlice, npSlice, List.length_append, List.length_take,
        List.length_drop, List.length_replicate, List.length_zipWith, hannWindow_length]
      omega

lemma rfft_length (x : List ℝ) : (rfft x).length = x.length / 2 + 1 := by
  rw [rfft, List.length_map, List.length_range]

lemma dbRow_length (f : List ℝ) (hf : f.length = FFT_SIZE) : (dbRow f).length = 400 := by
  rw [dbRow, List.length_map, List.length_take, rfft_length, hf]
  decide

lemma mem_magnitudeRows (samples : List ℝ) (md : Option ℚ) (d : ℚ) (row : List ℝ)
    (h : row ∈ magnitudeRows samples md d) :
    ∃ start, row = dbRow (extractFrame samples start) := by
  rw [magnitudeRows, framesSt_fst] at h
  obtain ⟨fr, hfr, rfl⟩ := List.mem_map.mp h
  obtain ⟨idx, -, rfl⟩ := List.mem_map.mp hfr
  exact ⟨idx * HOP_SIZE, rfl⟩

lemma dbRow_mem_ge (f : List ℝ) : ∀ x ∈ dbRow f, -200 ≤ x := by
  intro x hx
  rw [dbRow] at hx
  obtain ⟨z, -, rfl⟩ := List.mem_map.mp hx
  have hE0 : (0 : ℝ) < EPS := EPS_pos_lt_one.1
  have habs : (0 : ℝ) ≤ Complex.abs z := AbsoluteValue.nonneg _ z
  have hlog : Real.logb 10 EPS ≤ Real.logb 10 (Complex.abs z + EPS) :=
    Real.logb_le_logb_of_le (by norm_num) hE0 (by linarith)
  have h200 := db_of_eps
  linarith

lemma getD_row_ge (l : List ℝ) (hl : ∀ x ∈ l, -200 ≤ x) (j : ℕ) :
    -200 ≤ l.getD j (-200) := by
  rcases lt_or_le j l.length with h | h
  · rw [List.getD_eq_getElem _ _ h]
    exact hl _ (List.getElem_mem h)
  · rw [List.getD_eq_default _ _ h]

lemma foldl_maxstep_le (rows : List (List ℝ)) :
    ∀ m : WithBot ℝ,
      m ≤ rows.foldl (fun m row => if m < listMaxW row then listMaxW row else m) m := by
  induction rows with
  | nil => intro m; exact le_refl m
  | cons r t ih =>
    intro m
    rw [List.foldl_cons]
    refine le_trans ?_ (ih _)
    by_cases h : m < listMaxW r
    · rw [if_pos h]; exact h.le
    · rw [if_neg h]

lemma init_le_foldl_max (l : List ℝ) :
    ∀ m : WithBot ℝ, m ≤ l.foldl (fun m (x : ℝ) => max m ((x : WithBot ℝ))) m := by
  induction l with
  | nil => intro m; exact le_refl m
  | cons a t ih =>
    intro m
    rw [List.foldl_cons]
    exact le_trans (le_max_left _ _) (ih _)

lemma le_foldl_max (l : List ℝ) :
    ∀ (m : WithBot ℝ) (x : ℝ), x ∈ l →
      (x : WithBot ℝ) ≤ l.foldl (fun m (y : ℝ) => max m ((y : WithBot ℝ))) m := by
  induction l with
  | nil => intro m x hx; cases hx
  | cons a t ih =>
    intro m x hx
    rw [List.foldl_cons]
    rcases List.mem_cons.mp hx with h | h
    · subst h
      exact le_trans (le_max_right _ _) (init_le_foldl_max t _)
    · exact ih _ x h

lemma le_listMaxW (l : List ℝ) (x : ℝ) (hx : x ∈ l) :
    (x : WithBot ℝ) ≤ listMaxW l := by
  rw [listMaxW]
  exact le_foldl_max l ⊥ x hx

lemma maxMagnitudeW_exists (rows : List (List ℝ)) (hne : rows ≠ [])
    (hrow : ∀ row ∈ rows, ∃ x ∈ row, -200 ≤ x) :
    ∃ m : ℝ, maxMagnitudeW rows = (m : WithBot ℝ) ∧ -200 ≤ m := by
  obtain ⟨r, t, rfl⟩ := List.exists_cons_of_ne_nil hne
  obtain ⟨x, hxr, hx200⟩ := hrow r (List.mem_cons_self _ _)
  have hL : ((-200 : ℝ) : WithBot ℝ) ≤ listMaxW r :=
    le_trans (WithBot.coe_le_coe.mpr hx200) (le_listMaxW r x hxr)
  have hstep : listMaxW r ≤
      (if (⊥ : WithBot ℝ) < listMaxW r then listMaxW r else ⊥) := by
    rw [if_pos (lt_of_lt_of_le (WithBot.bot_lt_coe (-200)) hL)]
  have hM : ((-200 : ℝ) : WithBot ℝ) ≤ maxMagnitudeW (r :: t) := by
    rw [maxMagnitudeW, List.foldl_cons]
    exact le_trans hL (le_trans hstep (foldl_maxstep_le t _))
  have hne2 : maxMagnitudeW (r :: t) ≠ ⊥ := by
    intro hbot
    rw [hbot] at hM
    exact WithBot.not_coe_le_bot _ hM
  obtain ⟨m, hm⟩ := WithBot.ne_bot_iff_exists.mp hne2
  exact ⟨m, hm.symm, WithBot.coe_le_coe.mp (hm ▸ hM)⟩

/-- Claim C10: for every input, at least one magnitude row is computed, every
row has its full `use_bins = 400` entries, every dB value is at least
`20·log10(1e-10) = -200`, so `max_magnitude` is a finite real (never `-∞`, the
fold's starting value) and is at least `-200`; `min_db = max_magnitude - 80`
makes the normalization denominator exactly `80 + 1e-10 > 0`, and every
normalized value passed to the color map lies in `[0, 1]`. -/
theorem claim_C10 (samples : List ℝ) (md : Option ℚ) (d : ℚ) :
    0 < (magnitudeRows samples md d).length ∧
    (∀ i : ℕ, ((magnitudeRows samples md d).getD i
      (List.replicate 400 (0 : ℝ))).length = 400) ∧
    (∀ i j : ℕ,
      -200 ≤ ((magnitudeRows samples md d).getD i ([] : List ℝ)).getD j (-200)) ∧
    (∃ m : ℝ, maxMagnitudeW (magnitudeRows samples md d) = (m : WithBot ℝ) ∧
      -200 ≤ m ∧ m - (m - 80) + EPS = 80 + EPS ∧ (0 : ℝ) < 80 + EPS) ∧
    (∀ col row : ℕ,
      0 ≤ normalizedValue (magnitudeRows samples md d)
        ((maxMagnitudeW (magnitudeRows samples md d)).unbot' 0)
        ((maxMagnitudeW (magnitudeRows samples md d)).unbot' 0 - 80) col row ∧
      normalizedValue (magnitudeRows samples md d)
        ((maxMagnitudeW (magnitudeRows samples md d)).unbot' 0)
        ((maxMagnitudeW (magnitudeRows samples md d)).unbot' 0 - 80) col row ≤ 1) := by
  have hE0 : (0 : ℝ) < EPS := EPS_pos_lt_one.1
  have hlenpos : 0 < (magnitudeRows samples md d).length := by
    rw [magnitudeRows, List.length_map, framesSt_fst_length]
    exact frameIndices_length_pos _ _ _
  have hrowlen : ∀ row ∈ magnitudeRows samples md d, row.length = 400 := by
    intro row hrowmem
    obtain ⟨start, rfl⟩ := mem_magnitudeRows samples md d row hrowmem
    exact dbRow_length _ (extractFrame_length samples start)
  have hrowge : ∀ row ∈ magnitudeRows samples md d, ∀ x ∈ row, -200 ≤ x := by
    intro row hrowmem
    obtain ⟨start, rfl⟩ := mem_magnitudeRows samples md d row hrowmem
    exact dbRow_mem_ge _
  refine ⟨hlenpos, ?_, ?_, ?_, ?_⟩
  · intro i
    rcases lt_or_le i (magnitudeRows samples md d).length with h | h
    · rw [List.getD_eq_getElem _ _ h]
      exact hrowlen _ (List.getElem_mem h)
    · rw [List.getD_eq_default _ _ h, List.length_replicate]
  · intro i j
    rcases lt_or_le i (magnitudeRows samples md d).length with h | h
    · rw [List.getD_eq_getElem _ _ h]
      exact getD_row_ge _ (hrowge _ (List.getElem_mem h)) j
    · rw [List.getD_eq_default _ _ h]
      norm_num
  · have hne : magnitudeRows samples md d ≠ [] := List.length_pos.mp hlenpos
    obtain ⟨m, hm, hm200⟩ := maxMagnitudeW_exists _ hne (by
      intro row hrowmem
      have h400 := hrowlen row hrowmem
      have hx : row.getD 0 (-200) ∈ row := by
        rw [List.getD_eq_getElem _ _ (by omega)]
        exact List.getElem_mem _
      exact ⟨_, hx, hrowge row hrowmem _ hx⟩)
    exact ⟨m, hm, hm200, by ring, by linarith⟩
  · intro col row
    rw [normalizedValue]
    constructor
    · exact le_max_left _ _
    · exact max_le zero_le_one (min_le_left _ _)

end Shadowing
